import Mathlib

/-!
Verification development for the pyxf library (pyxf/pyxf.py), a Python bridge
to interactive logic-programming engines (XSB, SWI, ECLiPSe, Flora2, DES).

The engines themselves are external subprocesses; every driver method is a
straight-line composition of (a) pure string processing and (b) one
send/expect exchange with the subprocess.  The embedding below models the
pure string processing faithfully (Python regular-expression scans, str.split,
str.replace, str.strip, dict construction, the regrouping loops) and exposes
each exchange outcome (which pattern of the expect list matched, the captured
before/after text) as an explicit parameter.  A Python exception that a method
can raise is modelled by Option/Except-style results: none stands for the
raised exception.

Character strings are modelled as Lean String (a wrapper around List Char);
the scanners work on List Char with an explicit fuel argument equal to the
length of the scanned list, which is always sufficient because every step
consumes at least one character.
-/

/-- The whitespace characters removed by Python str.strip (ASCII range). -/
def pyIsSpaceChar (c : Char) : Bool :=
  c == ' ' || c == '\t' || c == '\n' || c == '\r' || c == '\x0b' || c == '\x0c'

/-- Characters of the regex class [a-zA-Z0-9_]. -/
def isIdentChar (c : Char) : Bool :=
  ('a' ≤ c && c ≤ 'z') || ('A' ≤ c && c ≤ 'Z') || ('0' ≤ c && c ≤ '9') || c == '_'

/-- Characters of the regex class [A-Z]. -/
def isUpperChar (c : Char) : Bool := 'A' ≤ c && c ≤ 'Z'

/-- Characters of the regex class [a-zA-Z0-9]. -/
def isAlnumChar (c : Char) : Bool :=
  ('a' ≤ c && c ≤ 'z') || ('A' ≤ c && c ≤ 'Z') || ('0' ≤ c && c ≤ '9')

/-- Tests whether the first list is an initial segment of the second. -/
def leadsWith : List Char → List Char → Bool
  | [], _ => true
  | _ :: _, [] => false
  | p :: ps, c :: cs => p == c && leadsWith ps cs

/-- Python substring containment (the in operator) on character lists. -/
def pyInL (sub : List Char) : List Char → Bool
  | [] => sub.isEmpty
  | c :: cs => leadsWith sub (c :: cs) || pyInL sub cs

/-- Python substring containment (the in operator) on strings. -/
def pyIn (sub s : String) : Bool := pyInL sub.data s.data

/-- Python str.strip on character lists: removes leading and trailing whitespace. -/
def pyStripL (l : List Char) : List Char :=
  ((l.dropWhile pyIsSpaceChar).reverse.dropWhile pyIsSpaceChar).reverse

/-- The terminator normalization shared by every query method:
query.strip() followed by appending a period unless query[-1] is already one.
Indexing query[-1] raises IndexError when the stripped text is empty; that
exception is modelled by none. -/
def normalizeQuery (q : String) : Option String :=
  match (pyStripL q.data).getLast? with
  | none => none
  | some c =>
    some (String.mk (if c = '.' then pyStripL q.data else pyStripL q.data ++ ['.']))

/-- Fueled scanner for re.findall of the variable pattern
[^a-zA-Z0-9_]([A-Z][a-zA-Z0-9_]*): leftmost non-overlapping matches, returning
group 1 of each match, exactly as Python re.findall does. -/
def varFindAllF : Nat → List Char → List String
  | 0, _ => []
  | _ + 1, [] => []
  | fuel + 1, c :: rest =>
    if isIdentChar c then varFindAllF fuel rest
    else
      match rest with
      | [] => []
      | d :: rest2 =>
        if isUpperChar d then
          String.mk (d :: rest2.takeWhile isIdentChar) ::
            varFindAllF fuel (rest2.dropWhile isIdentChar)
        else varFindAllF fuel rest

/-- re.findall of the xsb/swipl/eclipse/des variable pattern var_re. -/
def varFindAll (s : List Char) : List String := varFindAllF s.length s

/-- Fueled scanner for re.findall of the Flora2 variable pattern
[?][a-zA-Z0-9][a-zA-Z0-9_]* (no groups, so the full match is returned). -/
def fvarFindAllF : Nat → List Char → List String
  | 0, _ => []
  | _ + 1, [] => []
  | fuel + 1, c :: rest =>
    if c == '?' then
      match rest with
      | [] => []
      | d :: rest2 =>
        if isAlnumChar d then
          String.mk ('?' :: d :: rest2.takeWhile isIdentChar) ::
            fvarFindAllF fuel (rest2.dropWhile isIdentChar)
        else fvarFindAllF fuel rest
    else fvarFindAllF fuel rest

/-- re.findall of the Flora2 variable pattern fvar_re. -/
def fvarFindAll (s : List Char) : List String := fvarFindAllF s.length s

/-- Splits a list at its last closing parenthesis: returns the part before it
and the part after it.  Models the backtracking of the greedy group in the
result pattern, where the group swallows everything up to the last closing
parenthesis of the line. -/
def splitAtLastParen : List Char → Option (List Char × List Char)
  | [] => none
  | c :: cs =>
    match splitAtLastParen cs with
    | some (a, b) => some (c :: a, b)
    | none => if c == ')' then some ([], cs) else none

/-- The five literal characters that open a tagged result record. -/
def resHead : List Char := ("res(\x27").data

/-- Fueled scanner for re.findall of the tagged result pattern res_re,
written in Python as a literal opener, an upper-case name group, a quote and
comma, an optional space, and a greedy group closed by the last parenthesis
on the line (the dot of the pattern does not cross a newline). -/
def resFindAllF : Nat → List Char → List (String × String)
  | 0, _ => []
  | _ + 1, [] => []
  | fuel + 1, c :: rest =>
    if leadsWith resHead (c :: rest) then
      match (c :: rest).drop 5 with
      | d :: t2 =>
        if isUpperChar d then
          let name := d :: t2.takeWhile isIdentChar
          let t3 := t2.dropWhile isIdentChar
          if leadsWith ("\x27,").data t3 then
            let t4 := t3.drop 2
            let t5 := match t4 with
              | ' ' :: t4r => t4r
              | _ => t4
            let line := t5.takeWhile (· != '\n')
            match splitAtLastParen line with
            | some (value, _) =>
              (String.mk name, String.mk value) ::
                resFindAllF fuel (t5.drop (value.length + 1))
            | none => resFindAllF fuel rest
          else resFindAllF fuel rest
        else resFindAllF fuel rest
      | [] => resFindAllF fuel rest
    else resFindAllF fuel rest

/-- re.findall of the tagged result pattern res_re. -/
def resFindAll (s : List Char) : List (String × String) := resFindAllF s.length s

/-- Fueled scanner for re.findall of the Flora2 result pattern fres_re:
a question mark, a nonempty identifier group, the three literal characters
space equals space, and a nonempty greedy group of non-carriage-return
characters. -/
def fresFindAllF : Nat → List Char → List (String × String)
  | 0, _ => []
  | _ + 1, [] => []
  | fuel + 1, c :: rest =>
    if c == '?' then
      let name := rest.takeWhile isIdentChar
      if name.isEmpty then fresFindAllF fuel rest
      else
        let t := rest.dropWhile isIdentChar
        if leadsWith (" = ").data t then
          let t2 := t.drop 3
          let value := t2.takeWhile (· != '\r')
          if value.isEmpty then fresFindAllF fuel rest
          else
            (String.mk name, String.mk value) ::
              fresFindAllF fuel (t2.drop value.length)
        else fresFindAllF fuel rest
    else fresFindAllF fuel rest

/-- re.findall of the Flora2 result pattern fres_re. -/
def fresFindAll (s : List Char) : List (String × String) := fresFindAllF s.length s

/-- Fueled implementation of Python str.replace: leftmost non-overlapping
occurrences of pat are replaced by repl. -/
def pyReplaceF (pat repl : List Char) : Nat → List Char → List Char
  | 0, s => s
  | _ + 1, [] => []
  | fuel + 1, c :: rest =>
    if leadsWith pat (c :: rest) then
      repl ++ pyReplaceF pat repl fuel ((c :: rest).drop pat.length)
    else c :: pyReplaceF pat repl fuel rest

/-- Python str.replace on character lists (pat nonempty in all uses). -/
def pyReplace (pat repl s : List Char) : List Char := pyReplaceF pat repl s.length s

/-- Fueled implementation of Python str.split with a separator: the list of
segments between leftmost non-overlapping separator occurrences. -/
def pySplitF (sep : List Char) : Nat → List Char → List (List Char)
  | 0, s => [s]
  | _ + 1, [] => [[]]
  | fuel + 1, c :: rest =>
    if leadsWith sep (c :: rest) then
      [] :: pySplitF sep fuel ((c :: rest).drop sep.length)
    else
      match pySplitF sep fuel rest with
      | [] => [[c]]
      | seg :: segs => (c :: seg) :: segs

/-- Python str.split on character lists (sep nonempty in all uses). -/
def pySplit (sep s : List Char) : List (List Char) := pySplit.go sep s
where go (sep s : List Char) : List (List Char) := pySplitF sep s.length s

/-- The result regrouping loop shared by the xsb, swipl, eclipse and flora2
query methods: a counter and a temp buffer collect the flat record list into
chunks of k consecutive records, flushing when the counter is divisible by k.
Records left in temp when the loop ends are discarded. -/
def regroupAux {α : Type} (k : Nat) : List α → Nat → List α → List (List α)
  | [], _, _ => []
  | i :: res, counter, temp =>
    if (counter + 1) % k = 0 then
      (temp ++ [i]) :: regroupAux k res (counter + 1) []
    else
      regroupAux k res (counter + 1) (temp ++ [i])

/-- Entry point of the regrouping loop: counter starts at 0, temp empty. -/
def regroup {α : Type} (k : Nat) (res : List α) : List (List α) := regroupAux k res 0 []

/-- One Python dict insertion on an insertion-ordered association list:
an existing key has its value replaced in place, a new key is appended. -/
def pyDictInsert (d : List (String × String)) (kv : String × String) :
    List (String × String) :=
  if d.any (fun p => p.1 == kv.1) then
    d.map (fun p => if p.1 == kv.1 then kv else p)
  else d ++ [kv]

/-- Python dict built from a list of key-value pairs, kept as an
insertion-ordered association list; later pairs overwrite earlier keys. -/
def pyDict (pairs : List (String × String)) : List (String × String) :=
  pairs.foldl pyDictInsert []

/-- list(OrderedDict.fromkeys(l)): deduplication preserving first-occurrence
order, exactly as the des driver computes its variable list. -/
def odKeys (l : List String) : List String :=
  l.foldl (fun acc x => if x ∈ acc then acc else acc ++ [x]) []

/-- Admissible outcomes of list(set(l)) in Python: some enumeration of the
distinct elements of l.  CPython orders a set by string hashes, which are
randomized per process, so no particular order is guaranteed; the model is
therefore a relation, not a function. -/
def pySetElems (l out : List String) : Prop :=
  out.Nodup ∧ (∀ x ∈ out, x ∈ l) ∧ (∀ x ∈ l, x ∈ out)

instance (l out : List String) : Decidable (pySetElems l out) := by
  unfold pySetElems; infer_instance

/-- Specification-side deduplication keeping the first occurrence of each
element, used to state order-stability of variable extraction. -/
def firstOccDedup : List String → List String
  | [] => []
  | x :: xs => x :: firstOccDedup (xs.filter (fun y => y != x))
termination_by l => l.length
decreasing_by
  simp only [List.length_cons]
  exact Nat.lt_succ_of_le (List.length_filter_le _ _)

/-- The value a query method returns on its normal exit paths: a Python bool
or a list of dicts (each dict an insertion-ordered association list). -/
inductive PyResult where
  | bool (b : Bool)
  | seq (rows : List (List (String × String)))
deriving DecidableEq

/-- One tagged print directive of the xsb and swipl printer methods. -/
def xsbElem (i : String) : String :=
  "writeln( res(\x27\x27\x27" ++ i ++ "\x27\x27\x27," ++ i ++ ") )"

/-- The xsb and swipl printer method: query[:-1] plus a comma, the comma-joined
print directives, and the forced-backtracking suffix. -/
def xsbPrinter (lvars : List String) (query : String) : String :=
  String.mk query.data.dropLast ++ "," ++
    String.intercalate "," (lvars.map xsbElem) ++ ",nl,fail."

/-- One tagged print directive of the eclipse printer method (its quoting of
the variable-name literal differs from the xsb one). -/
def eclipseElem (i : String) : String :=
  "writeln( res(\x27\\\x27" ++ i ++ "\\\x27\x27," ++ i ++ ") )"

/-- The eclipse printer method: same shape as the xsb one with its own
directive quoting. -/
def eclipsePrinter (lvars : List String) (query : String) : String :=
  String.mk query.data.dropLast ++ "," ++
    String.intercalate "," (lvars.map eclipseElem) ++ ",nl,fail."

/-- The record extraction of the xsb (and swipl, eclipse) normal-query branch:
undo the double-escaping of carriage returns and newlines in the captured
before text, keep only the text after the last occurrence of the
backtracking-marker line, and scan it with the tagged result pattern. -/
def xsbParseRecords (before : String) : List (String × String) :=
  let st := pyReplace ("\\n").data ("\n").data (pyReplace ("\\r").data ("\r").data before.data)
  resFindAll ((pySplit (",nl,fail.\n").data st).getLastD st)

/-- The result assembly of the xsb normal-query branch: regroup the records in
chunks of len(lvars), build a dict from each chunk, and map an empty result
list to the bool False. -/
def xsbNormalParse (lvars : List String) (before : String) : PyResult :=
  let results := (regroup lvars.length (xsbParseRecords before)).map pyDict
  if results = [] then .bool false else .seq results

/-- The xsb query method.  lvars is the list produced by list(set(findall)),
passed as a parameter because the set enumeration order is not a function of
the query (see pySetElems); gErr and nErr tell which pattern the expect call
of the taken branch matched (true means the error pattern, modelling the
raised XSBQueryError as none); gBefore and nBefore are the captured before
texts of the two possible exchanges. -/
def xsbQuery (rawq : String) (lvars : List String) (gErr : Bool) (gBefore : String)
    (nErr : Bool) (nBefore : String) : Option PyResult :=
  match normalizeQuery rawq with
  | none => none
  | some _ =>
    if lvars = [] then
      if gErr then none else some (.bool (pyIn "yes" gBefore))
    else
      if nErr then none else some (xsbNormalParse lvars nBefore)

/-- The command string the xsb query method passes to sendline, as a function
of the raw query; none means the IndexError in normalizeQuery fired first and
nothing was sent. -/
def xsbSentCommand (rawq : String) (lvars : List String) : Option String :=
  (normalizeQuery rawq).map (fun q => if lvars = [] then q else xsbPrinter lvars q)

/-- The record extraction of the flora2 normal-query branch: undo the escaped
carriage returns (only those) and scan the whole before text with fres_re. -/
def flora2ParseRecords (before : String) : List (String × String) :=
  fresFindAll (pyReplace ("\\r").data ("\r").data before.data)

/-- The result assembly of the flora2 normal-query branch: regroup and build
dicts; the result list is returned as is, even when empty. -/
def flora2NormalParse (lvars : List String) (before : String) : PyResult :=
  .seq ((regroup lvars.length (flora2ParseRecords before)).map pyDict)

/-- The flora2 query method; parameters as in xsbQuery.  lvars comes from
list(set(fvar_re.findall(query))). -/
def flora2Query (rawq : String) (lvars : List String) (gErr : Bool) (gBefore : String)
    (nErr : Bool) (nBefore : String) : Option PyResult :=
  match normalizeQuery rawq with
  | none => none
  | some _ =>
    if lvars = [] then
      if gErr then none else some (.bool (pyIn "Yes" gBefore))
    else
      if nErr then none else some (flora2NormalParse lvars nBefore)

/-- The command string the flora2 query method sends (both branches send the
normalized query itself); none means the IndexError fired first. -/
def flora2SentCommand (rawq : String) : Option String := normalizeQuery rawq

/-- Python j[1:-1] on character lists. -/
def pySliceInner (l : List Char) : List Char := (l.drop 1).dropLast

/-- The des variable extraction: findall with var_re on the normalized query,
then list(OrderedDict.fromkeys(...)). -/
def desExtractVars (q : String) : List String := odKeys (varFindAll q.data)

/-- The row extraction of the des normal-query branch: split the before text
on the end-of-transmission marker, skip the echo segment when it contains the
Processing token (indexing segment 1 raises IndexError, modelled by none,
when there is no such segment), split the chosen segment on the
dollar-and-escaped-newline marker (falling back to the unescaped marker when
that split produced a single part), and turn every later part into a row of
values by splitting on the line marker, dropping the last piece, and removing
the surrounding quote characters of each piece. -/
def desProcessState (before : String) : Option (List (List String)) :=
  let segs := pySplit ("$eot").data before.data
  let seg0 := segs.headD []
  let afterEot := if pyInL ("Processing:").data seg0 then segs.get? 1 else some seg0
  afterEot.map (fun st =>
    let parts := pySplit ("$\\r\\n").data st
    if parts.length = 1 then
      ((pySplit ("$\r\n").data st).drop 1).map
        (fun i => ((pySplit ("\r\n").data i).dropLast).map (fun j => String.mk (pySliceInner j)))
    else
      (parts.drop 1).map
        (fun i => ((pySplit ("\\r\\n").data i).dropLast).map (fun j => String.mk (pySliceInner j))))

/-- The des ground-query answer: False exactly when the zero-tuples token
occurs in the captured before text. -/
def desGroundAnswer (before : String) : Bool := !(pyIn "0 tuples computed" before)

/-- The des query method.  Variable extraction is deterministic here
(OrderedDict), so lvars is computed, not passed; gErr and tErr tell whether
the expect call of the taken branch matched the error pattern (none models
the raised DESQueryError); gBefore and tBefore are the captured texts. -/
def desQuery (rawq : String) (gErr : Bool) (gBefore : String)
    (tErr : Bool) (tBefore : String) : Option PyResult :=
  match normalizeQuery rawq with
  | none => none
  | some q =>
    if desExtractVars q = [] then
      if gErr then none else some (.bool (desGroundAnswer gBefore))
    else
      if tErr then none
      else if pyIn "/assert" q then some (.bool true)
      else (desProcessState tBefore).map
        (fun rows => .seq (rows.map (fun r => pyDict ((desExtractVars q).zip r))))

/-- The command string the des query method sends; none means the IndexError
in normalizeQuery fired first and nothing was sent. -/
def desSentCommand (rawq : String) : Option String :=
  (normalizeQuery rawq).map (fun q => if desExtractVars q = [] then q else "/tapi " ++ q)

/-- Outcome of a load call: normal return, normal return with a warning
issued, or an exception raised. -/
inductive LoadOutcome where
  | ok
  | warned (msg : String)
  | raised (msg : String)
deriving DecidableEq

/-- The command string the xsb load method sends. -/
def xsbLoadCmd (m : String) : String := "[\x27" ++ m ++ "\x27]."

/-- The message of the XSBCompileError carrying the captured after text. -/
def xsbLoadMsg (m after : String) : String :=
  "Error while compiling module \"" ++ m ++ "\". Error from XSB:\n" ++ after

/-- The xsb load method: expect([xsbprompt, xsberror]); index 1 (the error
pattern) raises XSBCompileError with the captured after text in the message.
The swipl, eclipse and flora2 load methods behave identically up to their
pattern pair and message wording. -/
def xsbLoad (m : String) (idx : Fin 2) (after : String) : LoadOutcome :=
  if idx = 1 then .raised (xsbLoadMsg m after) else .ok

/-- The command string the des load method sends. -/
def desLoadCmd (m : String) : String := "/tapi /restore_ddb " ++ m

/-- The warning text of the des load method. -/
def desLoadWarning (m after : String) : String :=
  "Possible error while restoring DDB \"" ++ m ++ "\". Output from DES:\n" ++ after

/-- The des load method: expect([destapisuccess, destapiend, destapierror]);
only index 1 (the end-of-file or end-of-transmission pattern) triggers any
reaction, a warning; index 2, the error pattern, is silently ignored and the
method returns normally. -/
def desLoad (m : String) (idx : Fin 3) (after : String) : LoadOutcome :=
  if idx = 1 then .warned (desLoadWarning m after) else .ok

/-- One send/expect exchange outcome: which pattern matched (errMatched true
means the error pattern, index 1 of the expect list) and the captured texts. -/
structure Exchange where
  errMatched : Bool
  before : String
  after : String
deriving DecidableEq

/-- The per-fact success check of the flora2 addfacts method: the prompt
pattern matched and the affirmative token occurs in the before text. -/
def flora2FactAccepted (e : Exchange) : Bool := !e.errMatched && pyIn "Yes" e.before

/-- Outcome of an addfacts call: the list of commands sent to the engine, and
on failure the fact whose insertion was rejected and the exception message. -/
inductive FactsOutcome where
  | ok (sent : List String)
  | raised (sent : List String) (fact : String) (msg : String)
deriving DecidableEq

/-- The insertion command sent for one fact. -/
def flora2InsertCmd (f : String) : String := "insert\x7b" ++ f ++ "\x7d."

/-- The flora2 addfacts loop over facts paired with the engine response each
insertion command received; sent accumulates the commands actually sent. -/
def flora2AddfactsAux : List (String × Exchange) → List String → FactsOutcome
  | [], sent => .ok sent
  | (f, e) :: rest, sent =>
    let sent2 := sent ++ [flora2InsertCmd f]
    if e.errMatched then
      .raised sent2 f ("Error while adding fact \"" ++ f ++ "\". The command sent was " ++
        flora2InsertCmd f ++ ". Error from Flora2:\n" ++ e.after)
    else if pyIn "Yes" e.before then flora2AddfactsAux rest sent2
    else .raised sent2 f ("Error while adding fact \"" ++ f ++ "\". Error from Flora2:\n" ++ e.after)

/-- The flora2 addfacts method on a list of facts paired with exchanges. -/
def flora2Addfacts (items : List (String × Exchange)) : FactsOutcome :=
  flora2AddfactsAux items []

/-- Specification-side predicate for claim C5: a ground-query answer function
is decided by presence of a single literal token tested positively as a
substring of the captured text. -/
def decidedByTokenPresence (f : String → Bool) : Prop :=
  ∃ tok : String, ∀ s : String, f s = pyIn tok s

/-! ### Helper lemmas about the string primitives -/

theorem leadsWith_iff (p : List Char) : ∀ (l : List Char),
    leadsWith p l = true ↔ ∃ t, l = p ++ t := by
  induction p with
  | nil =>
    intro l
    simp only [leadsWith, List.nil_append]
    exact ⟨fun _ => ⟨l, rfl⟩, fun _ => trivial⟩
  | cons a ps ih =>
    intro l
    cases l with
    | nil =>
      simp only [leadsWith, List.cons_append]
      constructor
      · intro h; exact absurd h (by simp)
      · rintro ⟨t, h⟩; exact absurd h (by simp)
    | cons c cs =>
      simp only [leadsWith, Bool.and_eq_true, beq_iff_eq, ih cs, List.cons_append]
      constructor
      · rintro ⟨rfl, t, rfl⟩; exact ⟨t, rfl⟩
      · rintro ⟨t, h⟩
        rw [List.cons_eq_cons] at h
        exact ⟨h.1.symm, t, h.2⟩

theorem pyInL_iff (sub : List Char) : ∀ (l : List Char),
    pyInL sub l = true ↔ ∃ pre post, l = pre ++ sub ++ post := by
  intro l
  induction l with
  | nil =>
    simp only [pyInL, List.isEmpty_iff]
    constructor
    · rintro rfl; exact ⟨[], [], rfl⟩
    · rintro ⟨pre, post, h⟩
      exact (List.append_eq_nil.mp (List.append_eq_nil.mp h.symm).1).2
  | cons c cs ih =>
    simp only [pyInL, Bool.or_eq_true]
    constructor
    · rintro (h | h)
      · obtain ⟨t, ht⟩ := (leadsWith_iff sub (c :: cs)).mp h
        exact ⟨[], t, by simpa using ht⟩
      · obtain ⟨pre, post, hp⟩ := ih.mp h
        exact ⟨c :: pre, post, by simp [hp]⟩
    · rintro ⟨pre, post, hp⟩
      cases pre with
      | nil =>
        left
        exact (leadsWith_iff sub (c :: cs)).mpr ⟨post, by simpa using hp⟩
      | cons p ps =>
        right
        rw [List.cons_append, List.cons_append, List.cons_eq_cons] at hp
        exact ih.mpr ⟨ps, post, hp.2⟩

theorem pyInL_decomp (sub pre post : List Char) : pyInL sub (pre ++ sub ++ post) = true :=
  (pyInL_iff sub _).mpr ⟨pre, post, rfl⟩

theorem pyInL_nil_elim (sub : List Char) (h : pyInL sub [] = true) : sub = [] := by
  simpa [pyInL, List.isEmpty_iff] using h

theorem pyInL_append_right (sub l t : List Char) (h : pyInL sub l = true) :
    pyInL sub (l ++ t) = true := by
  obtain ⟨pre, post, rfl⟩ := (pyInL_iff sub l).mp h
  have : pre ++ sub ++ post ++ t = pre ++ sub ++ (post ++ t) := by simp
  rw [this]
  exact pyInL_decomp sub pre (post ++ t)

theorem dropWhile_append_ex (p : Char → Bool) (pre : List Char) (c : Char) (cs : List Char)
    (hc : p c = false) : ∃ a, List.dropWhile p (pre ++ c :: cs) = a ++ c :: cs := by
  induction pre with
  | nil => exact ⟨[], by simp [List.dropWhile, hc]⟩
  | cons x xs ih =>
    obtain ⟨a, ha⟩ := ih
    by_cases hx : p x = true
    · exact ⟨a, by simp [List.dropWhile, hx, ha]⟩
    · exact ⟨x :: xs, by simp [List.dropWhile, hx]⟩

theorem pyStripL_keeps (sub pre post : List Char) (c : Char) (cs : List Char)
    (d : Char) (ds : List Char)
    (hsub : sub = c :: cs) (hc : pyIsSpaceChar c = false)
    (hrev : sub.reverse = d :: ds) (hd : pyIsSpaceChar d = false) :
    ∃ a b, pyStripL (pre ++ sub ++ post) = a ++ sub ++ b := by
  have h1 : ∃ a, List.dropWhile pyIsSpaceChar (pre ++ sub ++ post) = a ++ sub ++ post := by
    have e : pre ++ sub ++ post = pre ++ (c :: (cs ++ post)) := by simp [hsub]
    rw [e]
    obtain ⟨a, ha⟩ := dropWhile_append_ex pyIsSpaceChar pre c (cs ++ post) hc
    exact ⟨a, by simp [ha, hsub]⟩
  obtain ⟨a, ha⟩ := h1
  have h2 : (a ++ sub ++ post).reverse = post.reverse ++ (d :: (ds ++ a.reverse)) := by
    simp [List.reverse_append, hrev]
  have h3 : ∃ b, List.dropWhile pyIsSpaceChar ((a ++ sub ++ post).reverse)
      = b ++ d :: (ds ++ a.reverse) := by
    rw [h2]
    exact dropWhile_append_ex pyIsSpaceChar post.reverse d (ds ++ a.reverse) hd
  obtain ⟨b, hb⟩ := h3
  refine ⟨a, b.reverse, ?_⟩
  unfold pyStripL
  rw [ha, hb]
  have h4 : b ++ d :: (ds ++ a.reverse) = b ++ (d :: ds) ++ a.reverse := by simp
  rw [h4, ← hrev]
  simp

theorem dropWhile_all (p : Char → Bool) : ∀ (l : List Char),
    (∀ c ∈ l, p c = true) → List.dropWhile p l = [] := by
  intro l
  induction l with
  | nil => intro _; rfl
  | cons x xs ih =>
    intro h
    simp only [List.dropWhile, h x (List.mem_cons_self x xs)]
    exact ih (fun c hc => h c (List.mem_cons_of_mem x hc))

theorem pyStripL_all_space (l : List Char) (h : ∀ c ∈ l, pyIsSpaceChar c = true) :
    pyStripL l = [] := by
  unfold pyStripL
  rw [dropWhile_all pyIsSpaceChar l h]
  rfl

theorem normalizeQuery_none (s : String)
    (h : ∀ c ∈ s.data, pyIsSpaceChar c = true) : normalizeQuery s = none := by
  unfold normalizeQuery
  rw [pyStripL_all_space s.data h]
  rfl

theorem normalizeQuery_data (rawq q : String) (hn : normalizeQuery rawq = some q) :
    q.data = pyStripL rawq.data ∨ q.data = pyStripL rawq.data ++ ['.'] := by
  unfold normalizeQuery at hn
  cases hL : (pyStripL rawq.data).getLast? with
  | none => rw [hL] at hn; exact absurd hn (by simp)
  | some c =>
    rw [hL] at hn
    simp only [Option.some_inj] at hn
    by_cases hc : c = '.'
    · left; rw [← hn]; simp [hc]
    · right; rw [← hn]; simp [hc]

theorem normalizeQuery_keeps (rawq q : String) (sub : List Char) (c : Char) (cs : List Char)
    (d : Char) (ds : List Char)
    (hsub : sub = c :: cs) (hc : pyIsSpaceChar c = false)
    (hrev : sub.reverse = d :: ds) (hd : pyIsSpaceChar d = false)
    (hin : pyInL sub rawq.data = true)
    (hn : normalizeQuery rawq = some q) : pyInL sub q.data = true := by
  obtain ⟨pre, post, hdec⟩ := (pyInL_iff sub rawq.data).mp hin
  obtain ⟨a, b, hstrip⟩ := pyStripL_keeps sub pre post c cs d ds hsub hc hrev hd
  have hq := normalizeQuery_data rawq q hn
  rw [hdec, hstrip] at hq
  rcases hq with hq | hq
  · rw [hq]; exact pyInL_decomp sub a b
  · rw [hq]
    exact pyInL_append_right sub (a ++ sub ++ b) ['.'] (pyInL_decomp sub a b)

/-! ### Helper lemmas about the regrouping loop and dict construction -/

theorem regroupAux_small {α : Type} (k : Nat) : ∀ (rest : List α) (c : Nat) (temp : List α),
    c % k + rest.length < k → regroupAux k rest c temp = [] := by
  intro rest
  induction rest with
  | nil => intro c temp _; rfl
  | cons x xs ih =>
    intro c temp h
    have hxs : c % k + (xs.length + 1) < k := by simpa [List.length_cons] using h
    have hck : c % k + 1 < k := by omega
    have hdm := Nat.div_add_mod c k
    have e : c + 1 = k * (c / k) + (c % k + 1) := by omega
    have h1 : (c + 1) % k = c % k + 1 := by
      rw [e, Nat.mul_add_mod, Nat.mod_eq_of_lt hck]
    have hne : ¬ ((c + 1) % k = 0) := by omega
    rw [regroupAux, if_neg hne]
    exact ih (c + 1) (temp ++ [x]) (by omega)

theorem regroupAux_chunk {α : Type} (k : Nat) : ∀ (xs : List α) (x : α) (g1 : List α)
    (c : Nat) (rest : List α),
    g1.length + (xs.length + 1) = k → c % k = g1.length →
    regroupAux k ((x :: xs) ++ rest) c g1 =
      (g1 ++ x :: xs) :: regroupAux k rest (c + (xs.length + 1)) [] := by
  intro xs
  induction xs with
  | nil =>
    intro x g1 c rest hlen hmod
    have hl0 : g1.length + 1 = k := by simpa using hlen
    have hdm := Nat.div_add_mod c k
    have e : c + 1 = k * (c / k) + k := by omega
    have h0 : (c + 1) % k = 0 := by
      rw [e, ← Nat.mul_succ, Nat.mul_mod_right]
    show regroupAux k (x :: rest) c g1 = _
    rw [regroupAux, if_pos h0]
    simp
  | cons y ys ih =>
    intro x g1 c rest hlen hmod
    have hyl : g1.length + (ys.length + 1 + 1) = k := by
      simpa [List.length_cons] using hlen
    have hck : c % k + 1 < k := by omega
    have hdm := Nat.div_add_mod c k
    have e : c + 1 = k * (c / k) + (c % k + 1) := by omega
    have h1 : (c + 1) % k = c % k + 1 := by
      rw [e, Nat.mul_add_mod, Nat.mod_eq_of_lt hck]
    have hne : ¬ ((c + 1) % k = 0) := by omega
    show regroupAux k (x :: (y :: ys ++ rest)) c g1 = _
    rw [regroupAux, if_neg hne]
    have hlen2 : (g1 ++ [x]).length + (ys.length + 1) = k := by
      simp only [List.length_append, List.length_cons, List.length_nil]
      omega
    have hmod2 : (c + 1) % k = (g1 ++ [x]).length := by
      simp only [List.length_append, List.length_cons, List.length_nil]
      omega
    rw [ih y (g1 ++ [x]) (c + 1) rest hlen2 hmod2]
    have hc2 : (c + 1) + (ys.length + 1) = c + (ys.length + 1 + 1) := by omega
    rw [hc2]
    simp [List.length_cons]

theorem regroup_join {α : Type} (k : Nat) (groups : List (List α)) (rest : List α)
    (hk : 0 < k) (hg : ∀ g ∈ groups, g.length = k) (hr : rest.length < k) :
    regroup k (groups.flatten ++ rest) = groups := by
  suffices haux : ∀ (gs : List (List α)) (c : Nat), (∀ g ∈ gs, g.length = k) → c % k = 0 →
      regroupAux k (gs.flatten ++ rest) c [] = gs by
    exact haux groups 0 hg (Nat.zero_mod k)
  intro gs
  induction gs with
  | nil =>
    intro c _ hc
    simp only [List.flatten_nil, List.nil_append]
    exact regroupAux_small k rest c [] (by omega)
  | cons g gs2 ih =>
    intro c hgs hc
    have hglen : g.length = k := hgs g (List.mem_cons_self g gs2)
    cases g with
    | nil => exact absurd hglen.symm (by simpa using Nat.ne_of_gt hk)
    | cons x xs =>
      have hxl : xs.length + 1 = k := by simpa [List.length_cons] using hglen
      have hjoin : ((x :: xs) :: gs2).flatten ++ rest = (x :: xs) ++ (gs2.flatten ++ rest) := by
        simp [List.flatten_cons]
      rw [hjoin, regroupAux_chunk k xs x [] c (gs2.flatten ++ rest)
        (by simpa using hxl) (by simpa using hc)]
      rw [ih (c + (xs.length + 1)) (fun g hg2 => hgs g (List.mem_cons_of_mem _ hg2))
        (by rw [hxl, Nat.add_mod_right, hc])]
      simp

theorem pyDict_foldl_nodup : ∀ (pairs d : List (String × String)),
    ((d ++ pairs).map Prod.fst).Nodup → pairs.foldl pyDictInsert d = d ++ pairs := by
  intro pairs
  induction pairs with
  | nil => intro d _; simp
  | cons kv ps ih =>
    intro d h
    have hkey : kv.1 ∉ d.map Prod.fst := by
      intro hmem
      have h2 : (d.map Prod.fst ++ kv.1 :: ps.map Prod.fst).Nodup := by
        simpa using h
      exact (List.disjoint_of_nodup_append h2) hmem (List.mem_cons_self _ _)
    have hany : d.any (fun p => p.1 == kv.1) = false := by
      rw [List.any_eq_false]
      intro p hp
      simp only [beq_iff_eq]
      intro he
      exact hkey (he ▸ List.mem_map_of_mem Prod.fst hp)
    have hins : pyDictInsert d kv = d ++ [kv] := by
      unfold pyDictInsert
      rw [hany]
      simp
    rw [List.foldl_cons, hins, ih (d ++ [kv]) (by simpa using h)]
    simp

theorem pyDict_nodup (pairs : List (String × String))
    (h : (pairs.map Prod.fst).Nodup) : pyDict pairs = pairs := by
  simpa using pyDict_foldl_nodup pairs [] (by simpa using h)

/-! ### Helper lemmas about deduplication -/

theorem odKeys_foldl : ∀ (l acc : List String),
    l.foldl (fun acc x => if x ∈ acc then acc else acc ++ [x]) acc =
      acc ++ firstOccDedup (l.filter (fun y => decide (y ∉ acc))) := by
  intro l
  induction l with
  | nil => intro acc; simp [firstOccDedup]
  | cons x xs ih =>
    intro acc
    by_cases hx : x ∈ acc
    · rw [List.foldl_cons]
      simp only [if_pos hx]
      rw [ih acc]
      have hfil : (x :: xs).filter (fun y => decide (y ∉ acc)) =
          xs.filter (fun y => decide (y ∉ acc)) := by
        rw [List.filter_cons]
        simp [hx]
      rw [hfil]
    · rw [List.foldl_cons]
      simp only [if_neg hx]
      rw [ih (acc ++ [x])]
      have hfil : (x :: xs).filter (fun y => decide (y ∉ acc)) =
          x :: xs.filter (fun y => decide (y ∉ acc)) := by
        rw [List.filter_cons]
        simp [hx]
      rw [hfil, firstOccDedup]
      have hfil2 : xs.filter (fun y => decide (y ∉ acc ++ [x])) =
          (xs.filter (fun y => decide (y ∉ acc))).filter (fun y => y != x) := by
        rw [List.filter_filter]
        apply List.filter_congr
        intro y _
        simp only [List.mem_append, List.mem_singleton, bne_iff_ne, decide_eq_true_eq]
        by_cases h1 : y ∈ acc <;> by_cases h2 : y = x <;> simp [h1, h2]
      rw [hfil2]
      simp

theorem odKeys_eq_firstOccDedup (l : List String) : odKeys l = firstOccDedup l := by
  unfold odKeys
  rw [odKeys_foldl l []]
  simp

theorem mem_firstOccDedup : ∀ (n : Nat) (l : List String), l.length ≤ n →
    ∀ y ∈ firstOccDedup l, y ∈ l := by
  intro n
  induction n with
  | zero =>
    intro l hl y hy
    rw [List.length_eq_zero.mp (Nat.le_zero.mp hl)] at hy
    simp [firstOccDedup] at hy
  | succ n ih =>
    intro l hl y hy
    cases l with
    | nil => simp [firstOccDedup] at hy
    | cons x xs =>
      rw [firstOccDedup] at hy
      rcases List.mem_cons.mp hy with h | h
      · exact h ▸ List.mem_cons_self x xs
      · have hlen : (xs.filter (fun y => y != x)).length ≤ n := by
          have h1 := List.length_filter_le (fun y => y != x) xs
          have h2 : xs.length ≤ n := by simpa [List.length_cons] using hl
          omega
        have := ih (xs.filter (fun y => y != x)) hlen y h
        exact List.mem_cons_of_mem x (List.mem_of_mem_filter this)

theorem firstOccDedup_nodup : ∀ (n : Nat) (l : List String), l.length ≤ n →
    (firstOccDedup l).Nodup := by
  intro n
  induction n with
  | zero =>
    intro l hl
    rw [List.length_eq_zero.mp (Nat.le_zero.mp hl)]
    simp [firstOccDedup]
  | succ n ih =>
    intro l hl
    cases l with
    | nil => simp [firstOccDedup]
    | cons x xs =>
      rw [firstOccDedup]
      have hlen : (xs.filter (fun y => y != x)).length ≤ n := by
        have h1 := List.length_filter_le (fun y => y != x) xs
        have h2 : xs.length ≤ n := by simpa [List.length_cons] using hl
        omega
      refine List.nodup_cons.mpr ⟨?_, ih _ hlen⟩
      intro hx
      have := mem_firstOccDedup _ _ (le_refl _) x hx
      have hne := List.of_mem_filter this
      simp at hne

theorem odKeys_nodup (l : List String) : (odKeys l).Nodup := by
  rw [odKeys_eq_firstOccDedup]
  exact firstOccDedup_nodup l.length l (le_refl _)

theorem pySetElems_nil (out : List String) (h : pySetElems [] out) : out = [] := by
  cases out with
  | nil => rfl
  | cons y ys => exact absurd (h.2.1 y (List.mem_cons_self y ys)) (List.not_mem_nil y)

/-! ### Claim C2 -/

/-- Claim C2, counterexample: the xsb/swipl/eclipse variable extraction
deduplicates with list(set(...)), whose enumeration order is unspecified
(string hashes are randomized per CPython process).  The enumeration
["Y", "X"] is an admissible output for the query p(X,Y,X), and it is not the
first-occurrence order ["X", "Y"] the claim requires. -/
theorem C2_counterexample :
    pySetElems (varFindAll ("p(X,Y,X).").data) ["Y", "X"] ∧
    (["Y", "X"] : List String) ≠ ["X", "Y"] :=
  ⟨by decide, by decide⟩

/-- Claim C2 (amended): the des driver deduplicates while preserving
first-occurrence order (OrderedDict.fromkeys refines the canonical
first-occurrence deduplication), and extracting from p(X,Y,X) yields
["X", "Y"] there; for the xsb/swipl/eclipse drivers ["X", "Y"] is merely one
admissible set enumeration among others. -/
theorem C2_amended_theorem :
    (∀ q : String, desExtractVars q = firstOccDedup (varFindAll q.data)) ∧
    desExtractVars "p(X,Y,X)." = ["X", "Y"] ∧
    pySetElems (varFindAll ("p(X,Y,X).").data) ["X", "Y"] :=
  ⟨fun _ => odKeys_eq_firstOccDedup _, by decide, by decide⟩

/-! ### Claim C9 -/

/-- Claim C9: for an input that is empty or all whitespace, the terminator
normalization indexes query[-1] on an empty string and raises IndexError
(modelled by none) in every driver, before any command is sent to the
subprocess (the sent-command functions are none as well). -/
theorem C9_theorem (s : String) (lvars : List String)
    (h : ∀ c ∈ s.data, pyIsSpaceChar c = true) :
    normalizeQuery s = none ∧ xsbSentCommand s lvars = none ∧
    flora2SentCommand s = none ∧ desSentCommand s = none := by
  have hn := normalizeQuery_none s h
  refine ⟨hn, ?_, hn, ?_⟩
  · unfold xsbSentCommand; rw [hn]; rfl
  · unfold desSentCommand; rw [hn]; rfl

/-- Witness for C9 at the one-space query. -/
theorem C9_witness :
    normalizeQuery " " = none ∧ xsbSentCommand " " ["X"] = none ∧
    flora2SentCommand " " = none ∧ desSentCommand " " = none :=
  C9_theorem " " ["X"] (by decide)

/-! ### Claim C6 -/

/-- Claim C6: for a query ending in the terminator and a nonempty variable
list, the printer emits the query with its trailing terminator stripped, one
tagged print directive per variable in list order joined by commas, and the
forced-backtracking suffix; the eclipse printer differs only in its directive
quoting. -/
theorem C6_theorem (q : String) (lvars : List String)
    (hq : q.data.getLast? = some '.') (_hl : lvars ≠ []) :
    ∃ core : String, q = core ++ "." ∧
      xsbPrinter lvars q =
        core ++ "," ++ String.intercalate "," (lvars.map xsbElem) ++ ",nl,fail." ∧
      eclipsePrinter lvars q =
        core ++ "," ++ String.intercalate "," (lvars.map eclipseElem) ++ ",nl,fail." := by
  refine ⟨String.mk q.data.dropLast, ?_, rfl, rfl⟩
  apply String.ext
  show q.data = (String.mk q.data.dropLast ++ ".").data
  have hstep : (String.mk q.data.dropLast ++ ".").data = q.data.dropLast ++ ['.'] := rfl
  rw [hstep]
  exact (List.dropLast_append_getLast? '.' (Option.mem_def.mpr hq)).symm

/-- Witness for C6 at the query p(X). with the single variable X. -/
theorem C6_witness :
    ∃ core : String, "p(X)." = core ++ "." ∧
      xsbPrinter ["X"] "p(X)." =
        core ++ "," ++ String.intercalate "," (["X"].map xsbElem) ++ ",nl,fail." ∧
      eclipsePrinter ["X"] "p(X)." =
        core ++ "," ++ String.intercalate "," (["X"].map eclipseElem) ++ ",nl,fail." :=
  C6_theorem "p(X)." ["X"] (by decide) (by decide)

/-! ### Claim C5 -/

/-- Claim C5, counterexample: no single literal token tested positively as a
substring decides the des ground-query boolean, because des returns True on
an empty captured text (where no nonempty token can occur) and False on a
text containing the zero-tuples token; the des check is a negative-token
test, not an affirmative one. -/
theorem C5_counterexample : ¬ decidedByTokenPresence desGroundAnswer := by
  rintro ⟨tok, h⟩
  have h1 := h ""
  have h2 := h "0 tuples computed"
  have e1 : desGroundAnswer "" = true := by decide
  have e2 : desGroundAnswer "0 tuples computed" = false := by decide
  rw [e1] at h1
  rw [e2] at h2
  have htok : tok.data = [] := pyInL_nil_elim tok.data h1.symm
  have e3 : pyInL ([] : List Char) ("0 tuples computed" : String).data = true := by decide
  have h4 : pyIn tok "0 tuples computed" = true := by
    unfold pyIn
    rw [htok]
    exact e3
  rw [h4] at h2
  exact absurd h2 (by decide)

/-- Claim C5 (amended): for a query with zero extracted variables, query
returns a boolean and never a sequence; xsb decides it by presence of its
affirmative token yes in the captured text (swipl, eclipse and flora2 do the
same with true and Yes), while des returns true exactly when the negative
token 0 tuples computed is absent. -/
theorem C5_amended_theorem (rawq q gB gB2 nB : String) (lvars : List String)
    (nErr : Bool)
    (hn : normalizeQuery rawq = some q)
    (hv : varFindAll q.data = [])
    (hset : pySetElems (varFindAll q.data) lvars) :
    xsbQuery rawq lvars false gB nErr nB = some (.bool (pyIn "yes" gB)) ∧
    desQuery rawq false gB2 nErr nB = some (.bool (desGroundAnswer gB2)) := by
  have hl : lvars = [] := pySetElems_nil lvars (hv ▸ hset)
  subst hl
  constructor
  · unfold xsbQuery
    rw [hn]
    simp
  · unfold desQuery
    rw [hn]
    have hd : desExtractVars q = [] := by
      unfold desExtractVars
      rw [hv]
      rfl
    simp [hd]

/-- Witness for C5 on a variable-free query with concrete captured texts. -/
theorem C5_witness :
    xsbQuery "a" [] false "yes" false "" = some (.bool (pyIn "yes" "yes")) ∧
    desQuery "a" false "0 tuples computed" false "" =
      some (.bool (desGroundAnswer "0 tuples computed")) :=
  C5_amended_theorem "a" "a." "yes" "0 tuples computed" "" [] false
    (by decide) (by decide) (by decide)

/-! ### Claim C7 -/

/-- Claim C7, counterexample: the des load method returns normally, raising
nothing, even when the expect call matched the error pattern (index 2). -/
theorem C7_counterexample :
    desLoad "nonexistent.pl" 2 "Error: unable to restore" = LoadOutcome.ok := by
  decide

/-- Claim C7 (amended): the xsb (and swipl, eclipse, flora2) load method
classifies the response against its ordered pattern pair and on an
error-pattern match raises a CompileError whose message carries the raw,
necessarily nonempty, captured error fragment; the des load method instead
matches three patterns, warns on the middle one, and returns normally even on
an error-pattern match. -/
theorem C7_amended_theorem (m after am : String)
    (h : leadsWith ("++Error").data after.data = true) :
    xsbLoad m 1 after = .raised (xsbLoadMsg m after) ∧
    after ≠ "" ∧
    pyIn after (xsbLoadMsg m after) = true ∧
    desLoad m 0 am = .ok ∧
    desLoad m 2 am = .ok ∧
    desLoad m 1 am = .warned (desLoadWarning m am) := by
  obtain ⟨t, ht⟩ := (leadsWith_iff ("++Error").data after.data).mp h
  refine ⟨?_, ?_, ?_, ?_, ?_, ?_⟩
  · unfold xsbLoad
    rw [if_pos rfl]
  · intro he
    have hdat : after.data = [] := by rw [he]
    rw [hdat] at ht
    exact absurd ((List.append_eq_nil.mp ht.symm).1) (by decide)
  · have hp := pyInL_decomp after.data
      ("Error while compiling module \"" ++ m ++ "\". Error from XSB:\n").data []
    rw [List.append_nil] at hp
    exact hp
  · unfold desLoad
    rw [if_neg (by decide)]
  · unfold desLoad
    rw [if_neg (by decide)]
  · unfold desLoad
    rw [if_pos rfl]

/-- Witness for C7 at a concrete module and error fragment. -/
theorem C7_witness :
    xsbLoad "mod.pl" 1 "++Error bad" = .raised (xsbLoadMsg "mod.pl" "++Error bad") ∧
    "++Error bad" ≠ "" ∧
    pyIn "++Error bad" (xsbLoadMsg "mod.pl" "++Error bad") = true ∧
    desLoad "mod.pl" 0 "x" = .ok ∧
    desLoad "mod.pl" 2 "x" = .ok ∧
    desLoad "mod.pl" 1 "x" = .warned (desLoadWarning "mod.pl" "x") :=
  C7_amended_theorem "mod.pl" "++Error bad" "x" (by decide)

/-! ### Claim C8 -/

theorem flora2AddfactsAux_ok : ∀ (items : List (String × Exchange)) (sent : List String),
    (∀ p ∈ items, flora2FactAccepted p.2 = true) →
    flora2AddfactsAux items sent = .ok (sent ++ items.map (fun p => flora2InsertCmd p.1)) := by
  intro items
  induction items with
  | nil => intro sent _; simp [flora2AddfactsAux]
  | cons it its ih =>
    intro sent h
    obtain ⟨f, e⟩ := it
    have hacc : e.errMatched = false ∧ pyIn "Yes" e.before = true := by
      simpa [flora2FactAccepted] using h (f, e) (List.mem_cons_self _ _)
    have herr : e.errMatched = false := hacc.1
    have h2 : pyIn "Yes" e.before = true := hacc.2
    rw [flora2AddfactsAux]
    rw [if_neg (by simp [herr]), if_pos h2]
    rw [ih (sent ++ [flora2InsertCmd f]) (fun p hp => h p (List.mem_cons_of_mem _ hp))]
    simp

theorem flora2AddfactsAux_stops : ∀ (good : List (String × Exchange)) (badF : String)
    (badE : Exchange) (rest : List (String × Exchange)) (sent : List String),
    (∀ p ∈ good, flora2FactAccepted p.2 = true) → flora2FactAccepted badE = false →
    ∃ msg, flora2AddfactsAux (good ++ (badF, badE) :: rest) sent =
      .raised (sent ++ good.map (fun p => flora2InsertCmd p.1) ++ [flora2InsertCmd badF])
        badF msg := by
  intro good
  induction good with
  | nil =>
    intro badF badE rest sent _ hb
    rw [List.nil_append]
    by_cases he : badE.errMatched = true
    · refine ⟨"Error while adding fact \"" ++ badF ++ "\". The command sent was " ++
        flora2InsertCmd badF ++ ". Error from Flora2:\n" ++ badE.after, ?_⟩
      rw [flora2AddfactsAux, if_pos he]
      simp
    · have herr2 : badE.errMatched = false := by
        cases hB : badE.errMatched
        · rfl
        · exact absurd hB he
      have hyes : pyIn "Yes" badE.before = false := by
        have hb2 := hb
        unfold flora2FactAccepted at hb2
        rw [herr2] at hb2
        simpa using hb2
      refine ⟨"Error while adding fact \"" ++ badF ++ "\". Error from Flora2:\n" ++
        badE.after, ?_⟩
      rw [flora2AddfactsAux, if_neg he, if_neg (by simp [hyes])]
      simp
  | cons it its ih =>
    intro badF badE rest sent h hb
    obtain ⟨f, e⟩ := it
    have hacc : e.errMatched = false ∧ pyIn "Yes" e.before = true := by
      simpa [flora2FactAccepted] using h (f, e) (List.mem_cons_self _ _)
    have herr : e.errMatched = false := hacc.1
    have h2 : pyIn "Yes" e.before = true := hacc.2
    rw [List.cons_append, flora2AddfactsAux]
    rw [if_neg (by simp [herr]), if_pos h2]
    obtain ⟨msg, hmsg⟩ := ih badF badE rest (sent ++ [flora2InsertCmd f])
      (fun p hp => h p (List.mem_cons_of_mem _ hp)) hb
    refine ⟨msg, ?_⟩
    rw [hmsg]
    simp

/-- Claim C8: addfacts sends one insertion command per fact, checks success
per fact, and on the first rejected fact raises FactError and stops: the
commands sent are exactly the insertions of the accepted leading facts plus
the rejected one, nothing for later facts, and no rollback command of any
kind; when every fact is accepted it sends exactly one insertion per fact and
returns normally. -/
theorem C8_theorem (good : List (String × Exchange)) (badF : String) (badE : Exchange)
    (rest : List (String × Exchange))
    (hg : ∀ p ∈ good, flora2FactAccepted p.2 = true)
    (hb : flora2FactAccepted badE = false) :
    (∃ msg, flora2Addfacts (good ++ (badF, badE) :: rest) =
      .raised (good.map (fun p => flora2InsertCmd p.1) ++ [flora2InsertCmd badF]) badF msg) ∧
    (∀ items : List (String × Exchange), (∀ p ∈ items, flora2FactAccepted p.2 = true) →
      flora2Addfacts items = .ok (items.map (fun p => flora2InsertCmd p.1))) := by
  constructor
  · obtain ⟨msg, hmsg⟩ := flora2AddfactsAux_stops good badF badE rest [] hg hb
    exact ⟨msg, by simpa [flora2Addfacts] using hmsg⟩
  · intro items h
    simpa [flora2Addfacts] using flora2AddfactsAux_ok items [] h

/-- Witness for C8: one accepted fact, then a rejected one, then an unsent one. -/
theorem C8_witness :
    (∃ msg, flora2Addfacts
        [("f1", ⟨false, "Yes", ""⟩), ("f2", ⟨false, "No", "nope"⟩), ("f3", ⟨false, "Yes", ""⟩)] =
      .raised ([("f1", (⟨false, "Yes", ""⟩ : Exchange))].map (fun p => flora2InsertCmd p.1) ++
        [flora2InsertCmd "f2"]) "f2" msg) ∧
    (∀ items : List (String × Exchange), (∀ p ∈ items, flora2FactAccepted p.2 = true) →
      flora2Addfacts items = .ok (items.map (fun p => flora2InsertCmd p.1))) :=
  C8_theorem [("f1", ⟨false, "Yes", ""⟩)] "f2" ⟨false, "No", "nope"⟩
    [("f3", ⟨false, "Yes", ""⟩)] (by decide) (by decide)

/-! ### Claim C4 -/

/-- Claim C4, counterexample: on a captured output yielding zero records, the
flora2 query method returns the empty sequence itself (its normal branch has
no mapping of the empty result list to False), refuting the claim that every
driver maps the empty sequence to the boolean false.  The admissibility
conjunct checks that the variable list used is an admissible set enumeration
for this query. -/
theorem C4_counterexample :
    pySetElems (fvarFindAll ("?x[ likes->?y ].").data) ["?x", "?y"] ∧
    flora2Query "?x[ likes->?y ]" ["?x", "?y"] false "" false "" =
      some (PyResult.seq []) :=
  ⟨by decide, by decide⟩

/-- Claim C4 (amended): when the captured output yields fewer records than
variables (zero complete groups), the result parsing step produces the empty
sequence; the xsb, swipl and eclipse drivers map it to the boolean False,
while the flora2 (and des) drivers return the empty sequence itself. -/
theorem C4_amended_theorem (lvars flvars : List String) (nB fB : String)
    (_hl : lvars ≠ []) (_hfl : flvars ≠ [])
    (hrec : (xsbParseRecords nB).length < lvars.length)
    (hfrec : (flora2ParseRecords fB).length < flvars.length) :
    xsbNormalParse lvars nB = PyResult.bool false ∧
    flora2NormalParse flvars fB = PyResult.seq [] := by
  constructor
  · unfold xsbNormalParse
    have h0 : regroup lvars.length (xsbParseRecords nB) = [] :=
      regroupAux_small lvars.length (xsbParseRecords nB) 0 [] (by simpa using hrec)
    rw [h0]
    simp
  · unfold flora2NormalParse
    have h0 : regroup flvars.length (flora2ParseRecords fB) = [] :=
      regroupAux_small flvars.length (flora2ParseRecords fB) 0 [] (by simpa using hfrec)
    rw [h0]
    simp

/-- Witness for C4 at empty captured outputs. -/
theorem C4_witness :
    xsbNormalParse ["X"] "" = PyResult.bool false ∧
    flora2NormalParse ["?x"] "" = PyResult.seq [] :=
  C4_amended_theorem ["X"] ["?x"] "" "" (by decide) (by decide) (by decide) (by decide)

/-! ### Claim C3 -/

/-- Claim C3, counterexample: with two variables and three extracted records
(not an exact multiple), the xsb query method neither raises nor fails: it
returns normally with one complete group, silently dropping the trailing
record.  The first conjunct checks that the variable list used is an
admissible set enumeration of the extraction. -/
theorem C3_counterexample :
    pySetElems (varFindAll ("p(X,Y).").data) ["X", "Y"] ∧
    xsbQuery "p(X,Y)" ["X", "Y"] false ""
        false "res(\x27X\x27,a)\nres(\x27Y\x27,b)\nres(\x27X\x27,c)" =
      some (PyResult.seq [[("X", "a"), ("Y", "b")]]) :=
  ⟨by decide, by decide⟩

/-- Claim C3 (amended): when the extracted record count is not an exact
multiple of the variable count, the regrouping loop returns exactly the
complete groups and silently discards the trailing incomplete group; no
exception is raised (the parse functions are total).  Stated for the xsb and
flora2 drivers cited by the claim. -/
theorem C3_amended_theorem (lvars flvars : List String) (nB fB : String)
    (groups fgroups : List (List (String × String))) (rest frest : List (String × String))
    (hl : lvars ≠ []) (hfl : flvars ≠ [])
    (hrec : xsbParseRecords nB = groups.flatten ++ rest)
    (hglen : ∀ g ∈ groups, g.length = lvars.length)
    (hrest : rest.length < lvars.length)
    (hfrec : flora2ParseRecords fB = fgroups.flatten ++ frest)
    (hfglen : ∀ g ∈ fgroups, g.length = flvars.length)
    (hfrest : frest.length < flvars.length) :
    xsbNormalParse lvars nB =
      (if groups.isEmpty then PyResult.bool false else PyResult.seq (groups.map pyDict)) ∧
    flora2NormalParse flvars fB = PyResult.seq (fgroups.map pyDict) := by
  have hk : 0 < lvars.length := by
    cases lvars with
    | nil => exact absurd rfl hl
    | cons a as => simp
  have hfk : 0 < flvars.length := by
    cases flvars with
    | nil => exact absurd rfl hfl
    | cons a as => simp
  constructor
  · unfold xsbNormalParse
    rw [hrec, regroup_join lvars.length groups rest hk hglen hrest]
    by_cases hG : groups = []
    · subst hG; simp
    · have hmap : groups.map pyDict ≠ [] := by
        simpa [List.map_eq_nil_iff] using hG
      rw [if_neg hmap]
      have hne : groups.isEmpty = false := by
        simpa [List.isEmpty_iff] using hG
      rw [hne]
      simp
  · unfold flora2NormalParse
    rw [hfrec, regroup_join flvars.length fgroups frest hfk hfglen hfrest]

/-- Witness for C3: three records against two variables for xsb, three
records against two variables for flora2. -/
theorem C3_witness :
    xsbNormalParse ["X", "Y"] "res(\x27X\x27,a)\nres(\x27Y\x27,b)\nres(\x27X\x27,c)" =
      (if ([[("X", "a"), ("Y", "b")]] : List (List (String × String))).isEmpty
        then PyResult.bool false
        else PyResult.seq ([[("X", "a"), ("Y", "b")]].map pyDict)) ∧
    flora2NormalParse ["?a", "?b"] "?a = 1\r\n?b = 2\r\n?a = 3" =
      PyResult.seq ([[("a", "1"), ("b", "2")]].map pyDict) :=
  C3_amended_theorem ["X", "Y"] ["?a", "?b"]
    "res(\x27X\x27,a)\nres(\x27Y\x27,b)\nres(\x27X\x27,c)" "?a = 1\r\n?b = 2\r\n?a = 3"
    [[("X", "a"), ("Y", "b")]] [[("a", "1"), ("b", "2")]] [("X", "c")] [("a", "3")]
    (by decide) (by decide) (by decide) (by decide) (by decide)
    (by decide) (by decide) (by decide)

/-! ### Claim C1 -/

/-- Claim C1, counterexample: at zero complete solutions (N = 0) the xsb
query method returns the boolean False, not a sequence of zero mappings, so
the claim fails when its solution count N is read as ranging over 0 as well.
The first conjunct checks the variable list is an admissible extraction. -/
theorem C1_counterexample :
    pySetElems (varFindAll ("p(X,Y).").data) ["X", "Y"] ∧
    xsbQuery "p(X,Y)" ["X", "Y"] false "" false "" = some (PyResult.bool false) :=
  ⟨by decide, by decide⟩

/-- Claim C1 (amended): for one or more extracted variables and N complete
solutions with N at least 1, the xsb and des query methods return a sequence
of exactly N mappings, each with key set equal to the extracted variable set;
a complete solution is N consecutive records tagging each variable exactly
once (xsb) or a row with one positional value per variable (des). -/
theorem C1_amended_theorem
    (rawqX qX gBX nB : String) (lvars : List String)
    (N : Nat) (groups : List (List (String × String)))
    (rawq q gB tB : String) (ge : Bool) (rows : List (List String)) (N2 : Nat)
    (hx1 : normalizeQuery rawqX = some qX)
    (_hx2 : pySetElems (varFindAll qX.data) lvars)
    (h1 : lvars.Nodup) (h2 : lvars ≠ [])
    (h3 : xsbParseRecords nB = groups.flatten)
    (h4 : groups.length = N) (h5 : 1 ≤ N)
    (h6 : ∀ g ∈ groups, (g.map Prod.fst).Perm lvars)
    (d1 : normalizeQuery rawq = some q)
    (d2 : desExtractVars q ≠ [])
    (d3 : pyIn "/assert" q = false)
    (d4 : desProcessState tB = some rows)
    (d5 : rows.length = N2) (_d6 : 1 ≤ N2)
    (d7 : ∀ r ∈ rows, r.length = (desExtractVars q).length) :
    (xsbQuery rawqX lvars false gBX false nB = some (PyResult.seq (groups.map pyDict)) ∧
     (groups.map pyDict).length = N ∧
     ∀ d ∈ groups.map pyDict, ∀ x, x ∈ d.map Prod.fst ↔ x ∈ lvars) ∧
    (desQuery rawq ge gB false tB =
       some (PyResult.seq (rows.map (fun r => pyDict ((desExtractVars q).zip r)))) ∧
     (rows.map (fun r => pyDict ((desExtractVars q).zip r))).length = N2 ∧
     ∀ d ∈ rows.map (fun r => pyDict ((desExtractVars q).zip r)),
       ∀ x, x ∈ d.map Prod.fst ↔ x ∈ desExtractVars q) := by
  have hk : 0 < lvars.length := by
    cases lvars with
    | nil => exact absurd rfl h2
    | cons a as => simp
  have hglen : ∀ g ∈ groups, g.length = lvars.length := by
    intro g hg
    have := (h6 g hg).length_eq
    simpa using this
  have hreg : regroup lvars.length (xsbParseRecords nB) = groups := by
    rw [h3, ← List.append_nil groups.flatten]
    exact regroup_join lvars.length groups [] hk hglen (by simpa using hk)
  have hGne : groups ≠ [] := by
    intro hG
    rw [hG] at h4
    simp at h4
    omega
  have hxparse : xsbNormalParse lvars nB = PyResult.seq (groups.map pyDict) := by
    unfold xsbNormalParse
    rw [hreg]
    have hmap : groups.map pyDict ≠ [] := by simpa [List.map_eq_nil_iff] using hGne
    rw [if_neg hmap]
  have hdictkeys : ∀ g ∈ groups, (pyDict g).map Prod.fst = g.map Prod.fst := by
    intro g hg
    have hnod : (g.map Prod.fst).Nodup := ((h6 g hg).nodup_iff).mpr h1
    rw [pyDict_nodup g hnod]
  refine ⟨⟨?_, by simp [h4], ?_⟩, ?_, by simp [d5], ?_⟩
  · simp [xsbQuery, hx1, h2, hxparse]
  · intro d hd x
    obtain ⟨g, hg, rfl⟩ := List.mem_map.mp hd
    rw [hdictkeys g hg]
    exact (h6 g hg).mem_iff
  · simp [desQuery, d1, d2, d3, d4]
  · intro d hd x
    obtain ⟨r, hr, rfl⟩ := List.mem_map.mp hd
    have hlen := d7 r hr
    have hnodup : (desExtractVars q).Nodup := odKeys_nodup _
    have hzf : ((desExtractVars q).zip r).map Prod.fst = desExtractVars q :=
      List.map_fst_zip _ _ (le_of_eq hlen.symm)
    rw [pyDict_nodup _ (by rw [hzf]; exact hnodup), hzf]

/-- Witness for C1: one complete solution for xsb (two tagged records for two
variables) and one complete positional row for des. -/
theorem C1_witness :
    (xsbQuery "p(X,Y)" ["X", "Y"] false "" false "res(\x27X\x27,a)\nres(\x27Y\x27,b)" =
       some (PyResult.seq ([[("X", "a"), ("Y", "b")]].map pyDict)) ∧
     (([[("X", "a"), ("Y", "b")]] : List (List (String × String))).map pyDict).length = 1 ∧
     ∀ d ∈ ([[("X", "a"), ("Y", "b")]] : List (List (String × String))).map pyDict,
       ∀ x, x ∈ d.map Prod.fst ↔ x ∈ ["X", "Y"]) ∧
    (desQuery "likes(A,B)" false "" false "$\\r\\n\x27a\x27\\r\\n\x27b\x27\\r\\n" =
       some (PyResult.seq ([["a", "b"]].map
         (fun r => pyDict ((desExtractVars "likes(A,B).").zip r)))) ∧
     (([["a", "b"]] : List (List String)).map
       (fun r => pyDict ((desExtractVars "likes(A,B).").zip r))).length = 1 ∧
     ∀ d ∈ ([["a", "b"]] : List (List String)).map
         (fun r => pyDict ((desExtractVars "likes(A,B).").zip r)),
       ∀ x, x ∈ d.map Prod.fst ↔ x ∈ desExtractVars "likes(A,B).") :=
  C1_amended_theorem "p(X,Y)" "p(X,Y)." "" "res(\x27X\x27,a)\nres(\x27Y\x27,b)" ["X", "Y"]
    1 [[("X", "a"), ("Y", "b")]]
    "likes(A,B)" "likes(A,B)." "" "$\\r\\n\x27a\x27\\r\\n\x27b\x27\\r\\n" false [["a", "b"]] 1
    (by decide) (by decide) (by decide) (by decide) (by decide) (by decide) (by decide)
    (by intro g hg; rw [List.mem_singleton] at hg; exact hg ▸ List.Perm.refl _)
    (by decide) (by decide) (by decide) (by decide) (by decide) (by decide)
    (by decide)

/-! ### Claim C10 -/

/-- Claim C10: a des query containing the /assert substring, with one or more
extracted variables, returns the boolean True as soon as the TAPI exchange
succeeds (and the raised DESQueryError, modelled by none, when the error
pattern matched), skipping result parsing entirely and never returning a
sequence of binding mappings. -/
theorem C10_theorem (rawq q gB tB : String) (ge te : Bool)
    (hn : normalizeQuery rawq = some q)
    (ha : pyIn "/assert" rawq = true)
    (hv : desExtractVars q ≠ []) :
    desQuery rawq ge gB te tB = if te then none else some (PyResult.bool true) := by
  have haq : pyIn "/assert" q = true :=
    normalizeQuery_keeps rawq q ("/assert").data '/' ("assert").data 't' ("ressa/").data
      (by decide) (by decide) (by decide) (by decide) ha hn
  simp [desQuery, hn, hv, haq]

/-- Witness for C10 at a concrete assertion query. -/
theorem C10_witness :
    desQuery "/assert likes(A,B)" false "" false "" =
      (if false then none else some (PyResult.bool true)) :=
  C10_theorem "/assert likes(A,B)" "/assert likes(A,B)." "" "" false false
    (by decide) (by decide) (by decide)
